import Mathlib

/-!
Verification of the Kafka-style log service of this repository.

The repository contains two variants of the log service:

* a distributed variant backed by a linearizable key-value substrate
  (`maelstrom.NewLinKV`), whose handlers allocate offsets and advance
  committed offsets through read / compare-and-swap retry loops
  (namespace `DistLog` below, plus `AllocModel` for the concurrent
  allocation loop and `IterModel` for the error-handling control flow);

* an in-memory single-node variant guarded by a process-wide mutex,
  storing a map from log key to a `Log` record
  (namespace `MemLog` below).

Every definition is translated directly from the Go source; doc comments
point to the handler each definition embeds.
-/

/-- Association-list lookup keyed by strings, modelling a Go `map` read
`v, ok := m[k]`.  Defined by recursion so that proofs and concrete
evaluation go through without a `BEq` detour. -/
def lookupKey {α : Type} : List (String × α) → String → Option α
  | [], _ => none
  | p :: rest, k => if p.1 = k then some p.2 else lookupKey rest k

/-- Association-list in-place update, modelling a Go `map` write
`m[k] = v` for a key already present (entries for other keys are kept). -/
def setKey {α : Type} : List (String × α) → String → α → List (String × α)
  | [], _, _ => []
  | p :: rest, k, v => if p.1 = k then (k, v) :: rest else p :: setKey rest k v

/-- The list of integers `[0, 1, ..., n-1]`. -/
def intRange (n : Nat) : List Int := (List.range n).map (fun (j : Nat) => (j : Int))

/-- The list of integers `[b, b+1, ..., b+n-1]`. -/
def intRangeFrom (b : Int) (n : Nat) : List Int :=
  (List.range n).map (fun (j : Nat) => b + (j : Int))


namespace DistLog

/-- Substrate key space of the distributed variant.  The Go code derives
string keys `fmt.Sprintf("%s/highest_offset", key)`,
`fmt.Sprintf("%s/data/%d", key, offset)` and
`fmt.Sprintf("%s/committed_offset", key)`; the three shapes never collide
for the same log key (the decimal rendering of an offset contains no
slash), which this structured key type captures by construction. -/
inductive SubKey : Type
  | highest (key : String)
  | data (key : String) (offset : Int)
  | committed (key : String)
deriving DecidableEq

/-- The linearizable key-value substrate state: every stored value in this
service is an integer (offsets and message payloads). -/
abbrev KV : Type := SubKey → Option Int

/-- The substrate before anything is written. -/
def KV.empty : KV := fun _ => none

/-- Writing one substrate key (both `kv.Write` and a successful
`kv.CompareAndSwap` result in the key holding the new value). -/
def KV.update (st : KV) (k : SubKey) (v : Int) : KV :=
  fun k' => if k' = k then some v else st k'

/-- The `send` handler of the distributed variant (part_004 lines 67-113),
executed without interference, in which case the compare-and-swap of the
first loop iteration succeeds: read `key/highest_offset` (absent reads as
`-1`), CAS it to one more, then write the message under
`key/data/<offset>`, and reply with the allocated offset. -/
def sendD (st : KV) (key : String) (msg : Int) : KV × Int :=
  let oldOffset : Int := (st (SubKey.highest key)).getD (-1)
  let offset : Int := oldOffset + 1
  let st1 := KV.update st (SubKey.highest key) offset
  let st2 := KV.update st1 (SubKey.data key offset) msg
  (st2, offset)

/-- A sequence of `send` calls for one key, returning the final substrate
state and the offsets replied to the callers in order. -/
def sendSeqD (st : KV) (key : String) : List Int → KV × List Int
  | [] => (st, [])
  | m :: ms =>
    let r := sendD st key m
    let rest := sendSeqD r.1 key ms
    (rest.1, r.2 :: rest.2)

/-- Inner scan of the `poll` handler (part_004 lines 135-153): the Go loop
`for i := startOffset; i <= highestOffset; i++` reads `key/data/<i>`,
skips it when absent, appends `[i, msg]` otherwise, incrementing `count`
and breaking as soon as `count == 3`.  `fuel` is the number of remaining
candidate offsets (`highestOffset - i + 1`), `count` the number of entries
collected so far. -/
def pollScan (st : KV) (key : String) : Int → Nat → Nat → List (Int × Int)
  | _, 0, _ => []
  | i, fuel + 1, count =>
    match st (SubKey.data key i) with
    | none => pollScan st key (i + 1) fuel count
    | some v =>
      if count + 1 = 3 then [(i, v)]
      else (i, v) :: pollScan st key (i + 1) fuel (count + 1)

/-- Per-key body of the `poll` handler (part_004 lines 125-157): read
`key/highest_offset`; when it is absent the loop body is skipped and the
key maps to the empty list; otherwise scan offsets from the requested
start up to the highest offset inclusive. -/
def pollKeyD (st : KV) (key : String) (startOffset : Int) : List (Int × Int) :=
  match st (SubKey.highest key) with
  | none => []
  | some highestOffset =>
    pollScan st key startOffset (highestOffset - startOffset + 1).toNat 0

/-- The `poll` handler (part_004 lines 115-165): every requested key is
assigned its collected entry list in the `msgs` response map (modelled as
an association list in request order; Go map iteration order is
unspecified but per-key results are independent). -/
def pollD (st : KV) (req : List (String × Int)) : List (String × List (Int × Int)) :=
  req.map (fun p => (p.1, pollKeyD st p.1 p.2))

/-- Number of offsets `i` in `[start, start + len)` whose log-entry key
`key/data/<i>` is present in the substrate.  Used to phrase when the
batch cap of `pollScan` cuts a scan short. -/
def presentCount (st : KV) (key : String) : Int → Nat → Nat
  | _, 0 => 0
  | i, len + 1 =>
    (if (st (SubKey.data key i)).isSome then 1 else 0) + presentCount st key (i + 1) len

/-- One key-offset pair of the `commit_offsets` handler (part_004 lines
176-197), executed without interference so that the compare-and-swap of
the first loop iteration succeeds: read `key/committed_offset` (absent
reads as `0`), CAS it to the max of the old and the requested offset. -/
def commitKeyD (st : KV) (key : String) (newOffset : Int) : KV :=
  KV.update st (SubKey.committed key)
    (max ((st (SubKey.committed key)).getD 0) newOffset)

/-- The `commit_offsets` handler (part_004 lines 167-203): fold the
per-key commit over the request map entries. -/
def commitOffsetsD (st : KV) (req : List (String × Int)) : KV :=
  req.foldl (fun s p => commitKeyD s p.1 p.2) st

/-- A sequence of `commit_offsets` calls, each committing a single offset
for the same key. -/
def commitSeqD (st : KV) (key : String) (offs : List Int) : KV :=
  offs.foldl (fun s o => commitOffsetsD s [(key, o)]) st

/-- The `list_committed_offsets` handler (part_004 lines 205-228): for
each requested key read `key/committed_offset` and add it to the response
map only when the read succeeds. -/
def listCommittedD (st : KV) (keys : List String) : List (String × Int) :=
  keys.filterMap (fun key => (st (SubKey.committed key)).map (fun v => (key, v)))

end DistLog

namespace MemLog

/-- The `Log` struct of the in-memory variant (part_002 lines 64-72):
a committed offset and the list of `(Offset, Message)` entries. -/
structure Log : Type where
  committedOffset : Int
  logEntries : List (Int × Int)
deriving DecidableEq

/-- The `logs` map of `ThreadSafeLog` (part_002 lines 59-62), modelled as
an association list (the mutex serializes all handlers, so each handler
is a plain state transformer). -/
abbrev Logs : Type := List (String × Log)

/-- Offset of the last entry of a log, `log.LogEntries[len(log.LogEntries)-1].Offset`
in the Go source.  The Go expression indexes the last element and is only
ever evaluated on logs that were created non-empty and only appended to;
the `0` default of this model is never reached on such logs. -/
def lastOffset (lg : Log) : Int := ((lg.logEntries.getLast?).map Prod.fst).getD 0

/-- The `send` handler of the in-memory variant (part_002 lines 78-114):
an existing log allocates one more than its last entry's offset and
appends; a fresh key allocates `(len(logs) + 1) * 1000`, creating the log
with `CommittedOffset` initialized to that first offset. -/
def sendM (S : Logs) (key : String) (msg : Int) : Logs × Int :=
  match lookupKey S key with
  | some lg =>
    let offset := lastOffset lg + 1
    (setKey S key (Log.mk lg.committedOffset (lg.logEntries ++ [(offset, msg)])), offset)
  | none =>
    let offset : Int := ((S.length : Int) + 1) * 1000
    (S ++ [(key, Log.mk offset [(offset, msg)])], offset)

/-- A sequence of `send` calls for one key on the in-memory variant. -/
def sendSeqM (S : Logs) (key : String) : List Int → Logs × List Int
  | [] => (S, [])
  | m :: ms =>
    let r := sendM S key m
    let rest := sendSeqM r.1 key ms
    (rest.1, r.2 :: rest.2)

/-- Inner loop of the in-memory `poll` handler (part_002 lines 136-145):
walk the entry list in order, collect entries with `Offset >= offset`,
and break once `count` reaches 3. -/
def collectEntries : List (Int × Int) → Int → Nat → List (Int × Int)
  | [], _, _ => []
  | e :: rest, offset, count =>
    if e.1 ≥ offset then
      if count + 1 = 3 then [e]
      else e :: collectEntries rest offset (count + 1)
    else collectEntries rest offset count

/-- Per-key body of the in-memory `poll` handler (part_002 lines
129-148): an absent key maps to the empty list, a present one to the
collected batch. -/
def pollKeyM (S : Logs) (key : String) (offset : Int) : List (Int × Int) :=
  match lookupKey S key with
  | none => []
  | some lg => collectEntries lg.logEntries offset 0

/-- The in-memory `poll` handler (part_002 lines 116-155). -/
def pollM (S : Logs) (req : List (String × Int)) : List (String × List (Int × Int)) :=
  req.map (fun p => (p.1, pollKeyM S p.1 p.2))

/-- The in-memory `commit_offsets` handler (part_002 lines 157-178): for
each requested key that exists, set its committed offset to the max of
the old value and the requested offset; absent keys are skipped. -/
def commitOffsetsM (S : Logs) (req : List (String × Int)) : Logs :=
  req.foldl
    (fun acc p =>
      match lookupKey acc p.1 with
      | some lg => setKey acc p.1 (Log.mk (max lg.committedOffset p.2) lg.logEntries)
      | none => acc)
    S

/-- The in-memory `list_committed_offsets` handler (part_002 lines
180-203): report the committed offset of each requested key that exists,
skipping absent keys. -/
def listCommittedM (S : Logs) (keys : List String) : List (String × Int) :=
  keys.filterMap (fun key => (lookupKey S key).map (fun lg => (key, lg.committedOffset)))

/-- Reply body of the in-memory `send` handler: `{type: "send_ok", offset}`. -/
def sendHandlerM (S : Logs) (key : String) (msg : Int) : Logs × String × Int :=
  let r := sendM S key msg
  (r.1, "send_ok", r.2)

/-- Reply body of the in-memory `poll` handler: `{type: "poll_ok", msgs}`. -/
def pollHandlerM (S : Logs) (req : List (String × Int)) :
    String × List (String × List (Int × Int)) :=
  ("poll_ok", pollM S req)

/-- Reply body of the in-memory `commit_offsets` handler:
`{type: "commit_offsets_ok"}`. -/
def commitHandlerM (S : Logs) (req : List (String × Int)) : Logs × String :=
  (commitOffsetsM S req, "commit_offsets_ok")

/-- Reply body of the in-memory `list_committed_offsets` handler:
`{type: "list_committed_offsets_ok", offsets}`. -/
def listHandlerM (S : Logs) (keys : List String) : String × List (String × Int) :=
  ("list_committed_offsets_ok", listCommittedM S keys)

end MemLog

namespace AllocModel

/-- Value read for a highest-offset marker: the Go `send` handler treats
a `KeyDoesNotExist` read error as the sentinel `-1` (part_004 lines
79-89). -/
def markerVal : Option Int → Int
  | none => -1
  | some v => v

/-- Local state of one concurrent `send` request running the allocation
loop of part_004 lines 78-98 for a fixed key: about to read the marker,
holding an observed marker value `e` and about to attempt the
compare-and-swap to `e + 1`, or finished with its allocated offset. -/
inductive AllocState : Type
  | needsRead
  | hasExpected (e : Int)
  | done (off : Int)
deriving DecidableEq

/-- Global state of `n` concurrent allocators for one log key: the
substrate's highest-offset marker for that key, each allocator's local
state, and the offsets returned to callers so far, in order of the
successful compare-and-swap operations (the substrate is linearizable,
so reads and CAS operations are atomic steps). -/
structure AllocSys (n : Nat) : Type where
  marker : Option Int
  procs : Fin n → AllocState
  returns : List Int

/-- Initial state: the key has never been appended to and every request
is about to perform its first marker read. -/
def AllocSys.init (n : Nat) : AllocSys n :=
  AllocSys.mk none (fun _ => AllocState.needsRead) []

/-- One atomic substrate operation of the allocation loop.  `read`:
`kv.ReadInt` returns the current marker (absent as `-1`).  `casOk`:
`kv.CompareAndSwap(offsetKey, e, e+1, true)` succeeds when the current
value equals the expectation, or when the key is absent
(`createIfNotExists = true`), installing `e + 1`; the request breaks out
of the loop and replies with offset `e + 1`.  `casFail`: the CAS finds a
different current value and the request retries from the read. -/
inductive AllocStep {n : Nat} : AllocSys n → AllocSys n → Prop
  | read (s : AllocSys n) (i : Fin n) :
      s.procs i = AllocState.needsRead →
      AllocStep s
        (AllocSys.mk s.marker
          (Function.update s.procs i (AllocState.hasExpected (markerVal s.marker)))
          s.returns)
  | casOk (s : AllocSys n) (i : Fin n) (e : Int) :
      s.procs i = AllocState.hasExpected e →
      (s.marker = some e ∨ s.marker = none) →
      AllocStep s
        (AllocSys.mk (some (e + 1))
          (Function.update s.procs i (AllocState.done (e + 1)))
          (s.returns ++ [e + 1]))
  | casFail (s : AllocSys n) (i : Fin n) (e v : Int) :
      s.procs i = AllocState.hasExpected e →
      s.marker = some v →
      v ≠ e →
      AllocStep s
        (AllocSys.mk s.marker (Function.update s.procs i AllocState.needsRead) s.returns)

/-- States reachable by any interleaving of the concurrent allocators. -/
def Reachable (n : Nat) (s : AllocSys n) : Prop :=
  Relation.ReflTransGen AllocStep (AllocSys.init n) s

/-- Inductive invariant of the allocation system: the returned offsets
are exactly `0, 1, ..., len-1` in order, the marker equals the last
returned offset (`-1` when none), and every observed expectation is
between `-1` and the current marker value. -/
def Inv {n : Nat} (s : AllocSys n) : Prop :=
  s.returns = intRange s.returns.length ∧
  markerVal s.marker = (s.returns.length : Int) - 1 ∧
  ∀ i e, s.procs i = AllocState.hasExpected e → -1 ≤ e ∧ e ≤ markerVal s.marker



/-- Concrete two-allocator trace for the C1 witness: both allocators read
the absent marker, allocator 0 claims offset 0, allocator 1 suffers a CAS
conflict, re-reads and claims offset 1.  `c1Trace1` through `c1Trace6`
are the successive global states. -/
def c1Trace0 : AllocSys 2 := AllocSys.init 2

/-- State after allocator 0 reads the absent marker. -/
def c1Trace1 : AllocSys 2 :=
  AllocSys.mk c1Trace0.marker
    (Function.update c1Trace0.procs 0 (AllocState.hasExpected (markerVal c1Trace0.marker)))
    c1Trace0.returns

/-- State after allocator 1 also reads the absent marker. -/
def c1Trace2 : AllocSys 2 :=
  AllocSys.mk c1Trace1.marker
    (Function.update c1Trace1.procs 1 (AllocState.hasExpected (markerVal c1Trace1.marker)))
    c1Trace1.returns

/-- State after allocator 0's CAS succeeds, claiming offset 0. -/
def c1Trace3 : AllocSys 2 :=
  AllocSys.mk (some ((-1) + 1))
    (Function.update c1Trace2.procs 0 (AllocState.done ((-1) + 1)))
    (c1Trace2.returns ++ [(-1) + 1])

/-- State after allocator 1's CAS fails against the updated marker. -/
def c1Trace4 : AllocSys 2 :=
  AllocSys.mk c1Trace3.marker
    (Function.update c1Trace3.procs 1 AllocState.needsRead)
    c1Trace3.returns

/-- State after allocator 1 re-reads the marker, now 0. -/
def c1Trace5 : AllocSys 2 :=
  AllocSys.mk c1Trace4.marker
    (Function.update c1Trace4.procs 1 (AllocState.hasExpected (markerVal c1Trace4.marker)))
    c1Trace4.returns

/-- State after allocator 1's second CAS succeeds, claiming offset 1. -/
def c1Trace6 : AllocSys 2 :=
  AllocSys.mk (some (0 + 1))
    (Function.update c1Trace5.procs 1 (AllocState.done (0 + 1)))
    (c1Trace5.returns ++ [0 + 1])


end AllocModel

namespace IterModel

/-- Substrate RPC error kinds relevant to the handlers:
`keyDoesNotExist` is `maelstrom.KeyDoesNotExist` (code 20),
`preconditionFailed` is the compare-and-swap conflict error (code 22),
and `other` stands for any remaining substrate error, such as transient
unavailability or a timeout. -/
inductive RPCErr : Type
  | keyDoesNotExist
  | preconditionFailed
  | other
deriving DecidableEq

/-- Result of a `kv.ReadInt` call. -/
inductive ReadResult : Type
  | ok (v : Int)
  | err (e : RPCErr)
deriving DecidableEq

/-- Result of a `kv.CompareAndSwap` call (`nil` error or some error). -/
inductive CASResult : Type
  | ok
  | err (e : RPCErr)
deriving DecidableEq

/-- Outcome of one iteration of the `send` allocation loop: break out of
the loop with an allocated offset, run the loop body again, or return the
error from the handler (propagating it to the dispatcher). -/
inductive SendIterOutcome : Type
  | success (offset : Int)
  | retry
  | failure (e : RPCErr)
deriving DecidableEq

/-- Outcome of one iteration of a `commit_offsets` per-key loop. -/
inductive CommitIterOutcome : Type
  | done
  | retry
  | failure (e : RPCErr)
deriving DecidableEq

/-- CAS half of the `send` loop body (part_004 lines 92-97): the Go code
checks only `err == nil`; on success it breaks with `oldOffset + 1`, on
ANY error it falls through to the next loop iteration. -/
def sendCasIter (oldOffset : Int) (cas : CASResult) : SendIterOutcome :=
  match cas with
  | CASResult.ok => SendIterOutcome.success (oldOffset + 1)
  | CASResult.err _ => SendIterOutcome.retry

/-- One iteration of the `send` allocation loop (part_004 lines 78-98):
a read error equal to `KeyDoesNotExist` is replaced by the sentinel
`-1`; any other read error is returned from the handler; then the CAS
result decides between breaking and retrying. -/
def sendIter (readRes : ReadResult) (cas : CASResult) : SendIterOutcome :=
  match readRes with
  | ReadResult.ok v => sendCasIter v cas
  | ReadResult.err e =>
    if e = RPCErr.keyDoesNotExist then sendCasIter (-1) cas
    else SendIterOutcome.failure e

/-- CAS half of the `commit_offsets` loop body (part_004 lines 192-196):
`err == nil` breaks, any error falls through to the next iteration. -/
def commitCasIter (cas : CASResult) : CommitIterOutcome :=
  match cas with
  | CASResult.ok => CommitIterOutcome.done
  | CASResult.err _ => CommitIterOutcome.retry

/-- One iteration of the `commit_offsets` per-key loop (part_004 lines
179-197): a `KeyDoesNotExist` read error is replaced by the sentinel `0`
(the committed value then being `max(0, newOffset)`); any other read
error is returned from the handler; the CAS result decides between
breaking and retrying. -/
def commitIter (readRes : ReadResult) (cas : CASResult) : CommitIterOutcome :=
  match readRes with
  | ReadResult.ok _ => commitCasIter cas
  | ReadResult.err e =>
    if e = RPCErr.keyDoesNotExist then commitCasIter cas
    else CommitIterOutcome.failure e

end IterModel

namespace MemLog3

/-- State of the earliest in-memory variant (part_003 line 47): a map
from log key to its entry list, with no committed offsets. -/
abbrev Logs3 : Type := List (String × List (Int × Int))

/-- Inner loop of part_003's `poll` handler (lines 100-109): collect
entries with `Offset >= offset`, breaking once `count` reaches 2 (the
comment says three, the code compares `count == 2`). -/
def collectEntries2 : List (Int × Int) → Int → Nat → List (Int × Int)
  | [], _, _ => []
  | e :: rest, offset, count =>
    if e.1 ≥ offset then
      if count + 1 = 2 then [e]
      else e :: collectEntries2 rest offset (count + 1)
    else collectEntries2 rest offset count

/-- Per-key body of part_003's `poll` handler (lines 92-112): an absent
key maps to the nil slice (an empty sequence), a present one to the
collected batch. -/
def pollKey3 (S : Logs3) (key : String) (offset : Int) : List (Int × Int) :=
  match lookupKey S key with
  | none => []
  | some entries => collectEntries2 entries offset 0

/-- The `poll` handler of part_003 (lines 82-119). -/
def poll3 (S : Logs3) (req : List (String × Int)) : List (String × List (Int × Int)) :=
  req.map (fun p => (p.1, pollKey3 S p.1 p.2))

end MemLog3

theorem intRange_length (n : Nat) : (intRange n).length = n := by
  simp [intRange]

theorem intRange_succ (n : Nat) :
    intRange (n + 1) = intRange n ++ [(n : Int)] := by
  simp [intRange, List.range_succ]

theorem intRange_mem (n : Nat) (m : Int) :
    m ∈ intRange n ↔ 0 ≤ m ∧ m < (n : Int) := by
  simp only [intRange, List.mem_map, List.mem_range]
  constructor
  · rintro ⟨j, hj, rfl⟩
    omega
  · intro h
    exact ⟨m.toNat, by omega, by omega⟩

theorem intRange_nodup (n : Nat) : (intRange n).Nodup := by
  refine (List.nodup_range n).map ?_
  intro a b h
  simp only at h
  exact_mod_cast h

theorem intRangeFrom_zero (n : Nat) : intRangeFrom 0 n = intRange n := by
  simp [intRangeFrom, intRange]

theorem intRangeFrom_succ (b : Int) (n : Nat) :
    intRangeFrom b (n + 1) = b :: intRangeFrom (b + 1) n := by
  unfold intRangeFrom
  rw [List.range_succ_eq_map, List.map_cons, List.map_map]
  congr 1
  · simp
  · apply List.map_congr_left
    intro j _
    simp only [Function.comp_apply]
    push_cast
    ring

theorem intRangeFrom_chain (b : Int) (n : Nat) :
    List.Chain' (fun a c => c = a + 1) (intRangeFrom b n) := by
  induction n generalizing b with
  | zero => simp [intRangeFrom]
  | succ n ih =>
    rw [intRangeFrom_succ]
    cases n with
    | zero => simp [intRangeFrom]
    | succ n =>
      rw [intRangeFrom_succ]
      exact List.Chain'.cons rfl (intRangeFrom_succ (b + 1) n ▸ ih (b + 1))

namespace DistLog

theorem KV.update_same (st : KV) (k : SubKey) (v : Int) :
    KV.update st k v k = some v := by
  simp [KV.update]

theorem KV.update_other (st : KV) (k k' : SubKey) (v : Int) (h : k' ≠ k) :
    KV.update st k v k' = st k' := by
  simp [KV.update, h]

theorem sendD_highest (st : KV) (key : String) (msg : Int) :
    (sendD st key msg).1 (SubKey.highest key) =
      some ((st (SubKey.highest key)).getD (-1) + 1) := by
  simp only [sendD]
  rw [KV.update_other _ _ _ _ (by simp), KV.update_same]

theorem sendSeqD_offsets (key : String) (msgs : List Int) :
    ∀ st : KV, (sendSeqD st key msgs).2 =
      intRangeFrom ((st (SubKey.highest key)).getD (-1) + 1) msgs.length := by
  induction msgs with
  | nil => intro st; simp [sendSeqD, intRangeFrom]
  | cons m ms ih =>
    intro st
    show (sendD st key m).2 :: (sendSeqD (sendD st key m).1 key ms).2 = _
    rw [ih, sendD_highest]
    show ((st (SubKey.highest key)).getD (-1) + 1) :: _ = _
    rw [List.length_cons, intRangeFrom_succ]
    rfl


end DistLog

namespace MemLog

theorem lookupKey_setKey_self {α : Type} (S : List (String × α)) (k : String) (v : α) :
    (lookupKey S k).isSome → lookupKey (setKey S k v) k = some v := by
  induction S with
  | nil => intro h; simp [lookupKey] at h
  | cons p rest ih =>
    intro h
    by_cases hp : p.1 = k
    · simp [lookupKey, setKey, hp]
    · simp only [lookupKey, setKey, hp, if_false, if_neg hp] at h ⊢
      exact ih h

theorem lookupKey_append_of_none {α : Type} (S l : List (String × α)) (k : String)
    (h : lookupKey S k = none) : lookupKey (S ++ l) k = lookupKey l k := by
  induction S with
  | nil => simp
  | cons p rest ih =>
    by_cases hp : p.1 = k
    · simp [lookupKey, hp] at h
    · simp only [lookupKey, hp, if_neg hp, List.cons_append] at h ⊢
      exact ih h

theorem lastOffset_append (c : Int) (es : List (Int × Int)) (o m : Int) :
    lastOffset (Log.mk c (es ++ [(o, m)])) = o := by
  simp [lastOffset]

theorem sendSeqM_offsets (key : String) (msgs : List Int) :
    ∀ (S : Logs) (lg : Log), lookupKey S key = some lg →
      (sendSeqM S key msgs).2 = intRangeFrom (lastOffset lg + 1) msgs.length := by
  induction msgs with
  | nil => intro S lg _; simp [sendSeqM, intRangeFrom]
  | cons m ms ih =>
    intro S lg hlg
    show (sendM S key m).2 :: (sendSeqM (sendM S key m).1 key ms).2 = _
    rw [List.length_cons, intRangeFrom_succ]
    have hsend : sendM S key m =
        (setKey S key (Log.mk lg.committedOffset (lg.logEntries ++ [(lastOffset lg + 1, m)])),
          lastOffset lg + 1) := by
      unfold sendM
      rw [hlg]
    rw [hsend]
    have hlook : lookupKey
        (setKey S key (Log.mk lg.committedOffset (lg.logEntries ++ [(lastOffset lg + 1, m)])))
        key =
        some (Log.mk lg.committedOffset (lg.logEntries ++ [(lastOffset lg + 1, m)])) :=
      lookupKey_setKey_self S key _ (by rw [hlg]; rfl)
    rw [ih _ _ hlook, lastOffset_append]

theorem sendSeqM_offsets_fresh (key : String) (m : Int) (ms : List Int)
    (S : Logs) (h : lookupKey S key = none) :
    (sendSeqM S key (m :: ms)).2 =
      intRangeFrom (((S.length : Int) + 1) * 1000) (ms.length + 1) := by
  show (sendM S key m).2 :: (sendSeqM (sendM S key m).1 key ms).2 = _
  have hsend : sendM S key m =
      (S ++ [(key, Log.mk (((S.length : Int) + 1) * 1000)
          [((((S.length : Int)) + 1) * 1000, m)])],
        ((S.length : Int) + 1) * 1000) := by
    unfold sendM
    rw [h]
  rw [hsend, intRangeFrom_succ]
  have hlook := lookupKey_append_of_none S
    [(key, Log.mk (((S.length : Int) + 1) * 1000) [((((S.length : Int)) + 1) * 1000, m)])]
    key h
  have hlg : lookupKey
      (S ++ [(key, Log.mk (((S.length : Int) + 1) * 1000)
        [((((S.length : Int)) + 1) * 1000, m)])]) key =
      some (Log.mk (((S.length : Int) + 1) * 1000)
        [((((S.length : Int)) + 1) * 1000, m)]) := by
    rw [hlook]
    simp [lookupKey]
  rw [sendSeqM_offsets key ms _ _ hlg]
  simp [lastOffset]


end MemLog

namespace AllocModel

theorem inv_init (n : Nat) : Inv (AllocSys.init n) := by
  refine ⟨rfl, rfl, ?_⟩
  intro i e h
  exact absurd h (by simp [AllocSys.init])

theorem inv_step {n : Nat} {s t : AllocSys n} (hs : Inv s) (hst : AllocStep s t) :
    Inv t := by
  obtain ⟨h1, h2, h3⟩ := hs
  cases hst with
  | read i hi =>
    refine ⟨h1, h2, ?_⟩
    intro j e hj
    dsimp only at hj ⊢
    by_cases hji : j = i
    · subst hji
      rw [Function.update_same] at hj
      cases hj
      constructor
      · rw [h2]; omega
      · exact le_refl _
    · rw [Function.update_noteq hji] at hj
      exact h3 j e hj
  | casOk i e hi hm =>
    obtain ⟨he1, he2⟩ := h3 i e hi
    have hem : e = markerVal s.marker := by
      rcases hm with hm | hm
      · rw [hm]; rfl
      · rw [hm] at he2 ⊢; simp only [markerVal] at he2 ⊢; omega
    have helen : e + 1 = (s.returns.length : Int) := by rw [hem, h2]; ring
    refine ⟨?_, ?_, ?_⟩
    · dsimp only
      rw [List.length_append, List.length_singleton, intRange_succ, ← h1, helen]
    · dsimp only
      simp only [markerVal, List.length_append, List.length_singleton]
      push_cast
      omega
    · intro j e' hj
      dsimp only at hj ⊢
      by_cases hji : j = i
      · subst hji
        rw [Function.update_same] at hj
        exact absurd hj (by simp)
      · rw [Function.update_noteq hji] at hj
        obtain ⟨hj1, hj2⟩ := h3 j e' hj
        refine ⟨hj1, ?_⟩
        simp only [markerVal]
        omega
  | casFail i e v hi hm hne =>
    refine ⟨h1, h2, ?_⟩
    intro j e' hj
    dsimp only at hj ⊢
    by_cases hji : j = i
    · subst hji
      rw [Function.update_same] at hj
      exact absurd hj (by simp)
    · rw [Function.update_noteq hji] at hj
      exact h3 j e' hj

theorem inv_reachable {n : Nat} {s : AllocSys n} (h : Reachable n s) : Inv s := by
  induction h with
  | refl => exact inv_init n
  | tail _ hstep ih => exact inv_step ih hstep

end AllocModel

/-- C1: in every interleaving of concurrently executing `send` allocation
loops on the same log key, the offsets returned to callers contain no
duplicates and form a gap-free contiguous range (they are exactly
`0, 1, ..., len-1`): no two concurrent allocators ever successfully claim
the same offset. -/
theorem concurrent_send_offsets_unique_contiguous
    (n : Nat) (s : AllocModel.AllocSys n) (h : AllocModel.Reachable n s) :
    s.returns.Nodup ∧
      ∀ m : Int, m ∈ s.returns ↔ 0 ≤ m ∧ m < (s.returns.length : Int) := by
  obtain ⟨h1, _, _⟩ := AllocModel.inv_reachable h
  constructor
  · rw [h1]
    exact intRange_nodup _
  · intro m
    conv_lhs => rw [h1]
    rw [intRange_mem]


/-- Witness for C1: the concrete conflict-and-retry interleaving of two
allocators is reachable, returns the offsets `[0, 1]`, and those satisfy
the uniqueness and contiguity conclusions. -/
theorem concurrent_send_offsets_unique_contiguous_witness :
    AllocModel.Reachable 2 AllocModel.c1Trace6 ∧
      AllocModel.c1Trace6.returns = [0, 1] ∧
      AllocModel.c1Trace6.returns.Nodup ∧
      ((0 : Int) ∈ AllocModel.c1Trace6.returns ↔
        0 ≤ (0 : Int) ∧ (0 : Int) < (AllocModel.c1Trace6.returns.length : Int)) := by
  have t1 : Relation.ReflTransGen AllocModel.AllocStep AllocModel.c1Trace0 AllocModel.c1Trace1 :=
    Relation.ReflTransGen.tail Relation.ReflTransGen.refl
      (AllocModel.AllocStep.read AllocModel.c1Trace0 0 rfl)
  have t2 : Relation.ReflTransGen AllocModel.AllocStep AllocModel.c1Trace0 AllocModel.c1Trace2 :=
    Relation.ReflTransGen.tail t1 (AllocModel.AllocStep.read AllocModel.c1Trace1 1 (by decide))
  have t3 : Relation.ReflTransGen AllocModel.AllocStep AllocModel.c1Trace0 AllocModel.c1Trace3 :=
    Relation.ReflTransGen.tail t2
      (AllocModel.AllocStep.casOk AllocModel.c1Trace2 0 (-1) (by decide) (Or.inr rfl))
  have t4 : Relation.ReflTransGen AllocModel.AllocStep AllocModel.c1Trace0 AllocModel.c1Trace4 :=
    Relation.ReflTransGen.tail t3
      (AllocModel.AllocStep.casFail AllocModel.c1Trace3 1 (-1) 0 (by decide) (by decide) (by decide))
  have t5 : Relation.ReflTransGen AllocModel.AllocStep AllocModel.c1Trace0 AllocModel.c1Trace5 :=
    Relation.ReflTransGen.tail t4 (AllocModel.AllocStep.read AllocModel.c1Trace4 1 (by decide))
  have t6 : Relation.ReflTransGen AllocModel.AllocStep AllocModel.c1Trace0 AllocModel.c1Trace6 :=
    Relation.ReflTransGen.tail t5
      (AllocModel.AllocStep.casOk AllocModel.c1Trace5 1 0 (by decide) (Or.inl (by decide)))
  have hr : AllocModel.Reachable 2 AllocModel.c1Trace6 := t6
  have hmain := concurrent_send_offsets_unique_contiguous 2 AllocModel.c1Trace6 hr
  exact ⟨hr, by decide, hmain.1, hmain.2 0⟩

/-- C2: a sequence of `send` calls for one key, executed sequentially,
returns offsets forming a strictly increasing gap-free sequence in which
every offset is exactly one more than the previous one, starting from a
deterministic base: `0` for a fresh key in the distributed variant
(marker absent reads as `-1`, first offset `-1 + 1`), and
`(len(logs) + 1) * 1000` for a fresh key in the in-memory variant. -/
theorem sequential_send_offsets_contiguous :
    (∀ (st : DistLog.KV) (key : String) (msgs : List Int),
      st (DistLog.SubKey.highest key) = none →
      (DistLog.sendSeqD st key msgs).2 = intRangeFrom 0 msgs.length ∧
      List.Chain' (fun a c => c = a + 1) (DistLog.sendSeqD st key msgs).2) ∧
    (∀ (S : MemLog.Logs) (key : String) (msgs : List Int),
      lookupKey S key = none →
      (MemLog.sendSeqM S key msgs).2 =
        intRangeFrom (((S.length : Int) + 1) * 1000) msgs.length ∧
      List.Chain' (fun a c => c = a + 1) (MemLog.sendSeqM S key msgs).2) := by
  constructor
  · intro st key msgs h
    have hoff := DistLog.sendSeqD_offsets key msgs st
    rw [h] at hoff
    norm_num at hoff
    exact ⟨hoff, by rw [hoff]; exact intRangeFrom_chain 0 msgs.length⟩
  · intro S key msgs h
    cases msgs with
    | nil => exact ⟨by simp [MemLog.sendSeqM, intRangeFrom], by simp [MemLog.sendSeqM]⟩
    | cons m ms =>
      have hoff := MemLog.sendSeqM_offsets_fresh key m ms S h
      refine ⟨by rw [hoff]; rfl, ?_⟩
      rw [hoff]
      exact intRangeFrom_chain _ _

/-- Witness for C2: from the empty state, two sequential sends to a fresh
key return offsets `[0, 1]` in the distributed variant and
`[1000, 1001]` in the in-memory variant. -/
theorem sequential_send_offsets_contiguous_witness :
    (DistLog.sendSeqD DistLog.KV.empty "x" [5, 7]).2 = [0, 1] ∧
      (MemLog.sendSeqM [] "x" [10, 20]).2 = [1000, 1001] := by
  have h1 := (sequential_send_offsets_contiguous.1 DistLog.KV.empty "x" [5, 7] rfl).1
  have h2 := (sequential_send_offsets_contiguous.2 [] "x" [10, 20] rfl).1
  rw [h1, h2]
  constructor <;> decide


/-- C6: the exact end-to-end scenario, starting from the empty state of
the in-memory variant: `send("x", 10)` replies `send_ok` with offset
1000, a second `send("x", 20)` replies `send_ok` with offset 1001,
`poll({"x": 1000})` replies `poll_ok` with
`{"x": [[1000, 10], [1001, 20]]}`, `commit_offsets({"x": 1000})` replies
`commit_offsets_ok`, and `list_committed_offsets(["x"])` replies with
`{"x": 1000}`. -/
theorem end_to_end_scenario :
    (MemLog.sendHandlerM [] "x" 10).2 = ("send_ok", 1000) ∧
      (MemLog.sendHandlerM (MemLog.sendHandlerM [] "x" 10).1 "x" 20).2 = ("send_ok", 1001) ∧
      MemLog.pollHandlerM
          (MemLog.sendHandlerM (MemLog.sendHandlerM [] "x" 10).1 "x" 20).1
          [("x", 1000)] =
        ("poll_ok", [("x", [(1000, 10), (1001, 20)])]) ∧
      (MemLog.commitHandlerM
          (MemLog.sendHandlerM (MemLog.sendHandlerM [] "x" 10).1 "x" 20).1
          [("x", 1000)]).2 = "commit_offsets_ok" ∧
      MemLog.listHandlerM
          (MemLog.commitHandlerM
            (MemLog.sendHandlerM (MemLog.sendHandlerM [] "x" 10).1 "x" 20).1
            [("x", 1000)]).1
          ["x"] =
        ("list_committed_offsets_ok", [("x", 1000)]) := by
  decide

/-- C10: in the in-memory variant, the first `send` for a fresh key
initializes that log's committed-offset field to the first allocated
offset, so `list_committed_offsets` for a key that has been sent to but
never committed reports the key with its first allocated offset rather
than omitting it. -/
theorem first_send_initializes_committed (S : MemLog.Logs) (key : String) (msg : Int)
    (h : lookupKey S key = none) :
    (MemLog.sendM S key msg).2 = ((S.length : Int) + 1) * 1000 ∧
      MemLog.listCommittedM (MemLog.sendM S key msg).1 [key] =
        [(key, (MemLog.sendM S key msg).2)] := by
  have hsend : MemLog.sendM S key msg =
      (S ++ [(key, MemLog.Log.mk (((S.length : Int) + 1) * 1000)
        [((((S.length : Int)) + 1) * 1000, msg)])],
        ((S.length : Int) + 1) * 1000) := by
    unfold MemLog.sendM
    rw [h]
  rw [hsend]
  refine ⟨rfl, ?_⟩
  have hlg : lookupKey
      (S ++ [(key, MemLog.Log.mk (((S.length : Int) + 1) * 1000)
        [((((S.length : Int)) + 1) * 1000, msg)])]) key =
      some (MemLog.Log.mk (((S.length : Int) + 1) * 1000)
        [((((S.length : Int)) + 1) * 1000, msg)]) := by
    rw [MemLog.lookupKey_append_of_none S _ key h]
    simp [lookupKey]
  simp [MemLog.listCommittedM, hlg]

/-- Witness for C10: sending message 42 to fresh key `x` in the empty
in-memory state allocates offset 1000 and makes
`list_committed_offsets(["x"])` report `{"x": 1000}` without any commit. -/
theorem first_send_initializes_committed_witness :
    (MemLog.sendM [] "x" 42).2 = 1000 ∧
      MemLog.listCommittedM (MemLog.sendM [] "x" 42).1 ["x"] = [("x", 1000)] := by
  have h := first_send_initializes_committed [] "x" 42 rfl
  refine ⟨by rw [h.1]; decide, ?_⟩
  rw [h.2, h.1]
  decide

/-- C7: in the distributed variant, a key whose committed-offset marker
is absent (no commit ever recorded for it) is missing from the mapping
returned by `list_committed_offsets`; no zero or other value is
synthesized for it. -/
theorem list_committed_omits_uncommitted (st : DistLog.KV) (keys : List String)
    (k : String) (h : st (DistLog.SubKey.committed k) = none) :
    k ∉ (DistLog.listCommittedD st keys).map Prod.fst := by
  intro hmem
  rw [List.mem_map] at hmem
  obtain ⟨p, hp, hpk⟩ := hmem
  rw [DistLog.listCommittedD, List.mem_filterMap] at hp
  obtain ⟨key, _, hmap⟩ := hp
  rw [Option.map_eq_some'] at hmap
  obtain ⟨v, hv, hpv⟩ := hmap
  rw [← hpv] at hpk
  simp only at hpk
  rw [hpk] at hv
  rw [h] at hv
  exact Option.noConfusion hv

/-- Witness for C7: with only key `a` committed, requesting keys `a` and
`x` never lists the never-committed key `x`. -/
theorem list_committed_omits_uncommitted_witness :
    "x" ∉ (DistLog.listCommittedD
      (DistLog.commitOffsetsD DistLog.KV.empty [("a", 5)]) ["a", "x"]).map Prod.fst :=
  list_committed_omits_uncommitted
    (DistLog.commitOffsetsD DistLog.KV.empty [("a", 5)]) ["a", "x"] "x" (by decide)

/-- Helper for C9: with duplicate-free request keys, the poll response
entry for a requested key is exactly the per-key poll result. -/
theorem lookupKey_pollD (st : DistLog.KV) (req : List (String × Int)) (k : String)
    (s : Int) (hnd : (req.map Prod.fst).Nodup) (hmem : (k, s) ∈ req) :
    lookupKey (DistLog.pollD st req) k = some (DistLog.pollKeyD st k s) := by
  induction req with
  | nil => exact absurd hmem (List.not_mem_nil _)
  | cons p rest ih =>
    rw [List.mem_cons] at hmem
    rcases hmem with hmem | hmem
    · subst hmem
      simp [DistLog.pollD, lookupKey]
    · have hk : k ∈ rest.map Prod.fst := List.mem_map_of_mem Prod.fst hmem
      have hne : p.1 ≠ k := by
        rw [List.map_cons, List.nodup_cons] at hnd
        intro hcontra
        exact hnd.1 (hcontra ▸ hk)
      show lookupKey ((p.1, DistLog.pollKeyD st p.1 p.2) :: DistLog.pollD st rest) k = _
      rw [lookupKey, if_neg hne]
      exact ih (by rw [List.map_cons, List.nodup_cons] at hnd; exact hnd.2) hmem

/-- C9: in the distributed variant, a polled key whose highest-offset
marker is absent (never appended to) is still present in the response,
mapped to the empty entry list. -/
theorem poll_absent_key_maps_to_empty (st : DistLog.KV) (req : List (String × Int))
    (k : String) (s : Int) (hnd : (req.map Prod.fst).Nodup) (hmem : (k, s) ∈ req)
    (habs : st (DistLog.SubKey.highest k) = none) :
    lookupKey (DistLog.pollD st req) k = some [] := by
  rw [lookupKey_pollD st req k s hnd hmem]
  simp [DistLog.pollKeyD, habs]

/-- Witness for C9: after one send to key `a`, polling keys `a` and `x`
still maps the never-appended key `x` to the empty list. -/
theorem poll_absent_key_maps_to_empty_witness :
    lookupKey (DistLog.pollD (DistLog.sendD DistLog.KV.empty "a" 5).1
      [("a", 0), ("x", 0)]) "x" = some [] :=
  poll_absent_key_maps_to_empty (DistLog.sendD DistLog.KV.empty "a" 5).1
    [("a", 0), ("x", 0)] "x" 0 (by decide) (by decide) (by decide)

/-- Helper for C3: folding `max` over a list whose members are all
bounded by `M`, starting from a seed bounded by `M`, yields exactly `M`
as soon as `M` is the seed or a member. -/
theorem foldl_max_eq (l : List Int) :
    ∀ (i M : Int), (M = i ∨ M ∈ l) → (∀ x ∈ l, x ≤ M) → i ≤ M →
      l.foldl max i = M := by
  induction l with
  | nil =>
    intro i M hM _ hle
    rcases hM with rfl | hM
    · rfl
    · exact absurd hM (List.not_mem_nil _)
  | cons x xs ih =>
    intro i M hM hub hle
    rw [List.foldl_cons]
    have hx : x ≤ M := hub x (List.mem_cons_self x xs)
    refine ih (max i x) M ?_ (fun y hy => hub y (List.mem_cons_of_mem x hy)) (by omega)
    rcases hM with rfl | hM
    · left; omega
    · rw [List.mem_cons] at hM
      rcases hM with rfl | hM
      · left; omega
      · right; exact hM

/-- Helper for C3: a single-key `commit_offsets` call is the per-key
commit. -/
theorem commitOffsetsD_single (st : DistLog.KV) (k : String) (o : Int) :
    DistLog.commitOffsetsD st [(k, o)] = DistLog.commitKeyD st k o := rfl

/-- Helper for C3: the committed-offset marker after a per-key commit. -/
theorem commitKeyD_marker (st : DistLog.KV) (k : String) (o : Int) :
    DistLog.commitKeyD st k o (DistLog.SubKey.committed k) =
      some (max ((st (DistLog.SubKey.committed k)).getD 0) o) := by
  rw [DistLog.commitKeyD, DistLog.KV.update_same]

/-- Helper for C3: the committed-offset marker after a sequence of
single-key commits, starting from a present marker. -/
theorem commitSeqD_marker (k : String) (offs : List Int) :
    ∀ (st : DistLog.KV) (d : Int), st (DistLog.SubKey.committed k) = some d →
      DistLog.commitSeqD st k offs (DistLog.SubKey.committed k) =
        some (offs.foldl max d) := by
  induction offs with
  | nil => intro st d h; exact h
  | cons o os ih =>
    intro st d h
    show DistLog.commitSeqD (DistLog.commitOffsetsD st [(k, o)]) k os
        (DistLog.SubKey.committed k) = _
    rw [List.foldl_cons]
    refine ih _ (max d o) ?_
    rw [commitOffsetsD_single, commitKeyD_marker, h]
    rfl

/-- C3: in the distributed variant, after any nonempty sequence of
`commit_offsets` calls for a key with no prior commit, each committing a
non-negative offset, `list_committed_offsets` for that key reports
exactly the maximum offset ever committed — later smaller commits (such
as 3 after 5) never regress the marker. -/
theorem commit_reports_max_committed (st : DistLog.KV) (k : String) (o : Int)
    (os : List Int) (M : Int) (h : st (DistLog.SubKey.committed k) = none)
    (hM : M ∈ o :: os) (hub : ∀ x ∈ o :: os, x ≤ M) (hMnn : 0 ≤ M) :
    DistLog.listCommittedD (DistLog.commitSeqD st k (o :: os)) [k] = [(k, M)] := by
  have hfirst : DistLog.commitOffsetsD st [(k, o)] (DistLog.SubKey.committed k) =
      some (max 0 o) := by
    rw [commitOffsetsD_single, commitKeyD_marker, h]
    rfl
  have hmarker : DistLog.commitSeqD st k (o :: os) (DistLog.SubKey.committed k) =
      some (os.foldl max (max 0 o)) := by
    show DistLog.commitSeqD (DistLog.commitOffsetsD st [(k, o)]) k os
        (DistLog.SubKey.committed k) = _
    exact commitSeqD_marker k os _ (max 0 o) hfirst
  have ho : o ≤ M := hub o (List.mem_cons_self o os)
  have hfold : os.foldl max (max 0 o) = M := by
    refine foldl_max_eq os (max 0 o) M ?_
      (fun y hy => hub y (List.mem_cons_of_mem o hy)) (by omega)
    rw [List.mem_cons] at hM
    rcases hM with rfl | hM
    · left; omega
    · right; exact hM
  simp [DistLog.listCommittedD, hmarker, hfold]

/-- Witness for C3: committing 5 then 3 for fresh key `x` makes
`list_committed_offsets(["x"])` report 5, not 3. -/
theorem commit_reports_max_committed_witness :
    DistLog.listCommittedD (DistLog.commitSeqD DistLog.KV.empty "x" [5, 3]) ["x"] =
      [("x", 5)] :=
  commit_reports_max_committed DistLog.KV.empty "x" 5 [3] 5 rfl
    (by decide) (by decide) (by decide)

/-- Helper for C4: the poll scan never collects past the batch cap of 3
entries (counting the entries already collected). -/
theorem pollScan_length (st : DistLog.KV) (key : String) :
    ∀ (fuel : Nat) (i : Int) (count : Nat), count < 3 →
      (DistLog.pollScan st key i fuel count).length + count ≤ 3 := by
  intro fuel
  induction fuel with
  | zero =>
    intro i count h
    simp only [DistLog.pollScan, List.length_nil]
    omega
  | succ fuel ih =>
    intro i count h
    cases hread : st (DistLog.SubKey.data key i) with
    | none =>
      simp only [DistLog.pollScan, hread]
      exact ih (i + 1) count h
    | some v =>
      simp only [DistLog.pollScan, hread]
      by_cases hc : count + 1 = 3
      · rw [if_pos hc]
        simp only [List.length_singleton]
        omega
      · rw [if_neg hc]
        have := ih (i + 1) (count + 1) (by omega)
        simp only [List.length_cons]
        omega

/-- Helper for C4: the per-key poll result of the distributed variant has
at most 3 entries. -/
theorem pollKeyD_length (st : DistLog.KV) (key : String) (s : Int) :
    (DistLog.pollKeyD st key s).length ≤ 3 := by
  rw [DistLog.pollKeyD]
  cases st (DistLog.SubKey.highest key) with
  | none => simp
  | some h =>
    dsimp only
    have := pollScan_length st key (h - s + 1).toNat s 0 (by omega)
    omega

/-- Helper for C4: the in-memory entry collection never collects past the
batch cap of 3 entries. -/
theorem collectEntries_length :
    ∀ (entries : List (Int × Int)) (offset : Int) (count : Nat), count < 3 →
      (MemLog.collectEntries entries offset count).length + count ≤ 3 := by
  intro entries
  induction entries with
  | nil =>
    intro offset count h
    simp only [MemLog.collectEntries, List.length_nil]
    omega
  | cons e rest ih =>
    intro offset count h
    by_cases hge : e.1 ≥ offset
    · simp only [MemLog.collectEntries, if_pos hge]
      by_cases hc : count + 1 = 3
      · rw [if_pos hc]
        simp only [List.length_singleton]
        omega
      · rw [if_neg hc]
        have := ih offset (count + 1) (by omega)
        simp only [List.length_cons]
        omega
    · simp only [MemLog.collectEntries, if_neg hge]
      exact ih offset count h

/-- Helper for C4: the per-key poll result of the in-memory variant has
at most 3 entries. -/
theorem pollKeyM_length (S : MemLog.Logs) (key : String) (s : Int) :
    (MemLog.pollKeyM S key s).length ≤ 3 := by
  rw [MemLog.pollKeyM]
  cases lookupKey S key with
  | none => simp
  | some lg =>
    dsimp only
    have := collectEntries_length lg.logEntries s 0 (by omega)
    omega

/-- Helper for C4: part_003's entry collection never collects past its
cap of 2 entries. -/
theorem collectEntries2_length :
    ∀ (entries : List (Int × Int)) (offset : Int) (count : Nat), count < 2 →
      (MemLog3.collectEntries2 entries offset count).length + count ≤ 2 := by
  intro entries
  induction entries with
  | nil =>
    intro offset count h
    simp only [MemLog3.collectEntries2, List.length_nil]
    omega
  | cons e rest ih =>
    intro offset count h
    by_cases hge : e.1 ≥ offset
    · simp only [MemLog3.collectEntries2, if_pos hge]
      by_cases hc : count + 1 = 2
      · rw [if_pos hc]
        simp only [List.length_singleton]
        omega
      · rw [if_neg hc]
        have := ih offset (count + 1) (by omega)
        simp only [List.length_cons]
        omega
    · simp only [MemLog3.collectEntries2, if_neg hge]
      exact ih offset count h

/-- Helper for C4: the per-key poll result of part_003 has at most 2
entries. -/
theorem pollKey3_length (S : MemLog3.Logs3) (key : String) (s : Int) :
    (MemLog3.pollKey3 S key s).length ≤ 2 := by
  rw [MemLog3.pollKey3]
  cases lookupKey S key with
  | none => simp
  | some entries =>
    dsimp only
    have := collectEntries2_length entries s 0 (by omega)
    omega

/-- C4: every per-key entry list in a `poll` response contains at most 3
entries, in the distributed variant and in both in-memory variants
(part_003 even caps at 2), regardless of how many entries exist at or
above the requested start offset. -/
theorem poll_batch_cap :
    (∀ (st : DistLog.KV) (req : List (String × Int)) (p : String × List (Int × Int)),
      p ∈ DistLog.pollD st req → p.2.length ≤ 3) ∧
    (∀ (S : MemLog.Logs) (req : List (String × Int)) (p : String × List (Int × Int)),
      p ∈ MemLog.pollM S req → p.2.length ≤ 3) ∧
    (∀ (S : MemLog3.Logs3) (req : List (String × Int)) (p : String × List (Int × Int)),
      p ∈ MemLog3.poll3 S req → p.2.length ≤ 3) := by
  refine ⟨?_, ?_, ?_⟩
  · intro st req p hp
    rw [DistLog.pollD, List.mem_map] at hp
    obtain ⟨q, _, rfl⟩ := hp
    exact pollKeyD_length st q.1 q.2
  · intro S req p hp
    rw [MemLog.pollM, List.mem_map] at hp
    obtain ⟨q, _, rfl⟩ := hp
    exact pollKeyM_length S q.1 q.2
  · intro S req p hp
    rw [MemLog3.poll3, List.mem_map] at hp
    obtain ⟨q, _, rfl⟩ := hp
    dsimp only
    have := pollKey3_length S q.1 q.2
    omega

/-- Witness for C4: after five sends to one key, polling it from the
start still yields at most 3 entries, in both variants. -/
theorem poll_batch_cap_witness :
    (DistLog.pollKeyD (DistLog.sendSeqD DistLog.KV.empty "x" [1, 2, 3, 4, 5]).1 "x" 0).length
        ≤ 3 ∧
      (MemLog.pollKeyM (MemLog.sendSeqM [] "x" [1, 2, 3, 4, 5]).1 "x" 0).length ≤ 3 ∧
      (MemLog3.pollKey3 [("x", [(0, 1), (1, 2), (2, 3), (3, 4)])] "x" 0).length ≤ 3 := by
  refine ⟨?_, ?_, ?_⟩
  · exact poll_batch_cap.1 (DistLog.sendSeqD DistLog.KV.empty "x" [1, 2, 3, 4, 5]).1
      [("x", 0)]
      ("x", DistLog.pollKeyD (DistLog.sendSeqD DistLog.KV.empty "x" [1, 2, 3, 4, 5]).1 "x" 0)
      (by simp [DistLog.pollD])
  · exact poll_batch_cap.2.1 (MemLog.sendSeqM [] "x" [1, 2, 3, 4, 5]).1 [("x", 0)]
      ("x", MemLog.pollKeyM (MemLog.sendSeqM [] "x" [1, 2, 3, 4, 5]).1 "x" 0)
      (by simp [MemLog.pollM])
  · exact poll_batch_cap.2.2 [("x", [(0, 1), (1, 2), (2, 3), (3, 4)])] [("x", 0)]
      ("x", MemLog3.pollKey3 [("x", [(0, 1), (1, 2), (2, 3), (3, 4)])] "x" 0)
      (by simp [MemLog3.poll3])

/-- Helper for C5: every entry collected by the poll scan has offset at
least the scan position. -/
theorem pollScan_ge (st : DistLog.KV) (key : String) :
    ∀ (fuel : Nat) (i : Int) (count : Nat) (p : Int × Int),
      p ∈ DistLog.pollScan st key i fuel count → i ≤ p.1 := by
  intro fuel
  induction fuel with
  | zero =>
    intro i count p hp
    simp [DistLog.pollScan] at hp
  | succ fuel ih =>
    intro i count p hp
    cases hread : st (DistLog.SubKey.data key i) with
    | none =>
      simp only [DistLog.pollScan, hread] at hp
      have := ih (i + 1) count p hp
      omega
    | some v =>
      simp only [DistLog.pollScan, hread] at hp
      by_cases hc : count + 1 = 3
      · rw [if_pos hc] at hp
        rw [List.mem_singleton] at hp
        subst hp
        exact le_refl _
      · rw [if_neg hc] at hp
        rw [List.mem_cons] at hp
        rcases hp with rfl | hp
        · exact le_refl _
        · have := ih (i + 1) (count + 1) p hp
          omega

/-- Helper for C5: the poll scan lists entries in strictly ascending
offset order. -/
theorem pollScan_sorted (st : DistLog.KV) (key : String) :
    ∀ (fuel : Nat) (i : Int) (count : Nat),
      List.Pairwise (fun a b => a.1 < b.1) (DistLog.pollScan st key i fuel count) := by
  intro fuel
  induction fuel with
  | zero =>
    intro i count
    simp [DistLog.pollScan]
  | succ fuel ih =>
    intro i count
    cases hread : st (DistLog.SubKey.data key i) with
    | none =>
      simp only [DistLog.pollScan, hread]
      exact ih (i + 1) count
    | some v =>
      simp only [DistLog.pollScan, hread]
      by_cases hc : count + 1 = 3
      · rw [if_pos hc]
        exact List.pairwise_singleton _ _
      · rw [if_neg hc]
        refine List.Pairwise.cons ?_ (ih (i + 1) (count + 1))
        intro p hp
        have := pollScan_ge st key fuel (i + 1) (count + 1) p hp
        show i < p.1
        omega

/-- Helper for C5: an entry present in the substrate within the scanned
window is collected, provided fewer than the remaining batch budget of
entries precede it in the window. -/
theorem pollScan_mem (st : DistLog.KV) (key : String) :
    ∀ (fuel : Nat) (i : Int) (count : Nat) (o m : Int),
      st (DistLog.SubKey.data key o) = some m → i ≤ o → o < i + (fuel : Int) →
      DistLog.presentCount st key i (o - i).toNat + count < 3 →
      (o, m) ∈ DistLog.pollScan st key i fuel count := by
  intro fuel
  induction fuel with
  | zero =>
    intro i count o m _ hle hlt _
    simp only [Nat.cast_zero, add_zero] at hlt
    omega
  | succ fuel ih =>
    intro i count o m hdata hle hlt hfew
    cases hread : st (DistLog.SubKey.data key i) with
    | none =>
      have hio : i ≠ o := by
        intro hcontra
        rw [hcontra, hdata] at hread
        exact Option.noConfusion hread
      have hton : (o - i).toNat = (o - (i + 1)).toNat + 1 := by omega
      rw [hton] at hfew
      simp only [DistLog.presentCount, hread, Option.isSome_none, if_false] at hfew
      simp only [DistLog.pollScan, hread]
      refine ih (i + 1) count o m hdata (by omega) (by push_cast at hlt ⊢; omega) ?_
      omega
    | some v =>
      simp only [DistLog.pollScan, hread]
      by_cases hio : i = o
      · subst hio
        rw [hdata] at hread
        cases hread
        by_cases hc : count + 1 = 3
        · rw [if_pos hc]
          exact List.mem_singleton.mpr rfl
        · rw [if_neg hc]
          exact List.mem_cons_self _ _
      · have hton : (o - i).toNat = (o - (i + 1)).toNat + 1 := by omega
        rw [hton] at hfew
        simp only [DistLog.presentCount, hread, Option.isSome_some, if_true] at hfew
        have hc : count + 1 ≠ 3 := by omega
        rw [if_neg hc]
        refine List.mem_cons_of_mem _ ?_
        refine ih (i + 1) (count + 1) o m hdata (by omega)
          (by push_cast at hlt ⊢; omega) (by omega)

/-- Helper for C5: every entry of a per-key poll result has offset at
least the requested start offset. -/
theorem pollKeyD_ge (st : DistLog.KV) (key : String) (s : Int) :
    ∀ p ∈ DistLog.pollKeyD st key s, s ≤ p.1 := by
  intro p hp
  cases hmark : st (DistLog.SubKey.highest key) with
  | none =>
    simp only [DistLog.pollKeyD, hmark] at hp
    exact absurd hp (List.not_mem_nil p)
  | some h =>
    simp only [DistLog.pollKeyD, hmark] at hp
    exact pollScan_ge st key _ s 0 p hp

/-- Helper for C5: a per-key poll result lists entries in strictly
ascending offset order. -/
theorem pollKeyD_sorted (st : DistLog.KV) (key : String) (s : Int) :
    List.Pairwise (fun a b => a.1 < b.1) (DistLog.pollKeyD st key s) := by
  cases hmark : st (DistLog.SubKey.highest key) with
  | none =>
    simp [DistLog.pollKeyD, hmark]
  | some h =>
    simp only [DistLog.pollKeyD, hmark]
    exact pollScan_sorted st key _ s 0

/-- Helper for C5: after a send, the entry key of the allocated offset
holds the sent message. -/
theorem sendD_data (st : DistLog.KV) (key : String) (msg : Int) :
    (DistLog.sendD st key msg).1 (DistLog.SubKey.data key (DistLog.sendD st key msg).2) =
      some msg := by
  simp only [DistLog.sendD]
  rw [DistLog.KV.update_same]

/-- C5 (amended): if `send(k, m)` returns offset `o`, a subsequent
`poll({k: s})` with `s ≤ o` returns for `k` a sequence with no entry
below the requested start offset and in ascending offset order, and the
sequence contains the entry `(o, m)` provided fewer than 3 entries are
present at offsets in `[s, o)` — otherwise the batch cap of 3 cuts the
scan off before reaching `o`. -/
theorem send_then_poll (st : DistLog.KV) (k : String) (m s : Int)
    (hs : s ≤ (DistLog.sendD st k m).2) :
    (DistLog.presentCount (DistLog.sendD st k m).1 k s
        (((DistLog.sendD st k m).2 - s).toNat) < 3 →
      ((DistLog.sendD st k m).2, m) ∈
        DistLog.pollKeyD (DistLog.sendD st k m).1 k s) ∧
      (∀ p ∈ DistLog.pollKeyD (DistLog.sendD st k m).1 k s, s ≤ p.1) ∧
      List.Pairwise (fun a b => a.1 < b.1)
        (DistLog.pollKeyD (DistLog.sendD st k m).1 k s) := by
  refine ⟨?_, pollKeyD_ge _ k s, pollKeyD_sorted _ k s⟩
  intro hfew
  have hmark : (DistLog.sendD st k m).1 (DistLog.SubKey.highest k) =
      some (DistLog.sendD st k m).2 := by
    rw [DistLog.sendD_highest]
    rfl
  simp only [DistLog.pollKeyD, hmark]
  refine pollScan_mem (DistLog.sendD st k m).1 k
    (((DistLog.sendD st k m).2 - s + 1).toNat) s 0 (DistLog.sendD st k m).2 m
    (sendD_data st k m) hs (by omega) (by omega)

/-- Counterexample for C5 as stated: with three entries already present
at offsets 0, 1, 2 of key `x`, a fourth send returns offset 3, yet
`poll({x: 0})` — where `0 ≤ 3` — does not contain the entry `(3, 99)`,
because the batch cap of 3 stops the scan at offset 2. -/
theorem send_then_poll_counterexample :
    (DistLog.sendD (DistLog.sendSeqD DistLog.KV.empty "x" [7, 7, 7]).1 "x" 99).2 = 3 ∧
      (0 : Int) ≤ 3 ∧
      ((3 : Int), (99 : Int)) ∉ DistLog.pollKeyD
        (DistLog.sendD (DistLog.sendSeqD DistLog.KV.empty "x" [7, 7, 7]).1 "x" 99).1
        "x" 0 := by
  decide

/-- Witness for C5 (amended): sending to a fresh key and polling from 0
finds the freshly appended entry. -/
theorem send_then_poll_witness :
    ((DistLog.sendD DistLog.KV.empty "x" 10).2, (10 : Int)) ∈
      DistLog.pollKeyD (DistLog.sendD DistLog.KV.empty "x" 10).1 "x" 0 :=
  (send_then_poll DistLog.KV.empty "x" 10 0 (by decide)).1 (by decide)

/-- Counterexample for C8 as stated: a substrate error other than "not
found" — here a transient `other` failure returned by the
compare-and-swap — IS retried by the send allocation loop rather than
propagated: the loop checks only `err == nil` on the CAS result, so this
non-conflict error yields `retry`, not a request failure. -/
theorem cas_error_retries_counterexample :
    IterModel.sendIter (IterModel.ReadResult.ok 5)
        (IterModel.CASResult.err IterModel.RPCErr.other) =
      IterModel.SendIterOutcome.retry ∧
      IterModel.RPCErr.other ≠ IterModel.RPCErr.keyDoesNotExist ∧
      IterModel.RPCErr.other ≠ IterModel.RPCErr.preconditionFailed ∧
      IterModel.sendIter (IterModel.ReadResult.ok 5)
          (IterModel.CASResult.err IterModel.RPCErr.other) ≠
        IterModel.SendIterOutcome.failure IterModel.RPCErr.other ∧
      IterModel.commitIter (IterModel.ReadResult.ok 5)
          (IterModel.CASResult.err IterModel.RPCErr.other) =
        IterModel.CommitIterOutcome.retry := by
  decide

/-- C8 (amended): in the send-allocation and commit-advancement loops,
a substrate error other than "not found" returned by the marker READ is
not retried and propagates to the caller as a request failure, while the
compare-and-swap result is checked only against nil, so any CAS error —
conflict or otherwise — triggers a retry of the read-compute-swap cycle;
conversely a retry only ever arises from a CAS error. -/
theorem substrate_error_propagation (r : IterModel.ReadResult)
    (c : IterModel.CASResult) (e : IterModel.RPCErr) :
    (r = IterModel.ReadResult.err e → e ≠ IterModel.RPCErr.keyDoesNotExist →
      IterModel.sendIter r c = IterModel.SendIterOutcome.failure e ∧
      IterModel.commitIter r c = IterModel.CommitIterOutcome.failure e) ∧
    (∀ e', c = IterModel.CASResult.err e' →
      IterModel.sendIter r c ≠ IterModel.SendIterOutcome.failure e' ∨
        r = IterModel.ReadResult.err e') ∧
    (IterModel.sendIter r c = IterModel.SendIterOutcome.retry →
      ∃ e', c = IterModel.CASResult.err e') ∧
    (IterModel.commitIter r c = IterModel.CommitIterOutcome.retry →
      ∃ e', c = IterModel.CASResult.err e') := by
  refine ⟨?_, ?_, ?_, ?_⟩
  · rintro rfl he
    constructor
    · simp [IterModel.sendIter, he]
    · simp [IterModel.commitIter, he]
  · rintro e' rfl
    cases r with
    | ok v => left; simp [IterModel.sendIter, IterModel.sendCasIter]
    | err e2 =>
      by_cases he2 : e2 = IterModel.RPCErr.keyDoesNotExist
      · left; simp [IterModel.sendIter, IterModel.sendCasIter, he2]
      · by_cases hee : e2 = e'
        · right; rw [hee]
        · left; simp [IterModel.sendIter, IterModel.sendCasIter, he2, hee]
  · intro hretry
    cases c with
    | ok =>
      exfalso
      cases r with
      | ok v => simp [IterModel.sendIter, IterModel.sendCasIter] at hretry
      | err e2 =>
        by_cases he2 : e2 = IterModel.RPCErr.keyDoesNotExist <;>
          simp [IterModel.sendIter, IterModel.sendCasIter, he2] at hretry
    | err e' => exact ⟨e', rfl⟩
  · intro hretry
    cases c with
    | ok =>
      exfalso
      cases r with
      | ok v => simp [IterModel.commitIter, IterModel.commitCasIter] at hretry
      | err e2 =>
        by_cases he2 : e2 = IterModel.RPCErr.keyDoesNotExist <;>
          simp [IterModel.commitIter, IterModel.commitCasIter, he2] at hretry
    | err e' => exact ⟨e', rfl⟩

/-- Witness for C8 (amended): a transient read failure (`other`, not
"not found") makes both loops return the error to the caller. -/
theorem substrate_error_propagation_witness :
    IterModel.sendIter (IterModel.ReadResult.err IterModel.RPCErr.other)
        IterModel.CASResult.ok =
      IterModel.SendIterOutcome.failure IterModel.RPCErr.other ∧
      IterModel.commitIter (IterModel.ReadResult.err IterModel.RPCErr.other)
          IterModel.CASResult.ok =
        IterModel.CommitIterOutcome.failure IterModel.RPCErr.other :=
  (substrate_error_propagation (IterModel.ReadResult.err IterModel.RPCErr.other)
    IterModel.CASResult.ok IterModel.RPCErr.other).1 rfl (by decide)
